import Mathlib

/-!
Verification of the postfix-macro rewriter (`postfix-macros-impl/lib.rs`).

The development shallowly embeds the three components of the rewriter:

* the token model (`Tt`, mirroring `proc_macro::TokenTree`),
* the expression boundary scanner (`expressionLength`, mirroring
  `expression_length`),
* the argument builder (`prependMacroArgToGroup`, mirroring
  `prepend_macro_arg_to_group`),
* the stream walker (`visitLevel` / `visitStream`, mirroring
  `Visitor::visit_stream` and `Visitor::visit_group`).

Panics (`panic!`) are modelled as `Except.error`.  The walker re-visits the
group it has just rebuilt (line 88 of the source), a recursion that is not
structurally decreasing, so the walker carries a fuel counter that is spent
only on those re-visits; every other call is structural.  `RErr.fuel` marks
fuel exhaustion (a modelling artifact), `RErr.panic` a real `panic!` of the
source.
-/

/-- Mirror of `proc_macro::Delimiter`. -/
inductive Delimiter
  | parenthesis
  | bracket
  | brace
  | none
deriving DecidableEq

/-- Mirror of `proc_macro::Spacing`. -/
inductive Spacing
  | alone
  | joint
deriving DecidableEq

/-- Mirror of `proc_macro::TokenTree` (`Tt` in the source): a group owns its inner
token stream; punctuation carries its character and spacing. -/
inductive Tt
  | group (delim : Delimiter) (stream : List Tt)
  | ident (name : String)
  | punct (ch : Char) (spacing : Spacing)
  | lit (text : String)

/-- Outcome of the inner binop-partner loop of `expression_length`
(lines 157-218): `unaryAll offs` models `break 'outer` after
`expr_len += offs_until_binop_partner + 1` (the brace-group and `;`/`,`/`=`
arms), `partner offs` models falling out of the loop (inner `break` or the
slice being exhausted) with the current `offs_until_binop_partner`. -/
inductive BinopScan
  | unaryAll (offs : Nat)
  | partner (offs : Nat)
deriving DecidableEq

/-- The binop-partner search of `expression_length` (lines 157-218).
The argument list holds the tokens before the ambiguous operator,
nearest first (the source iterates `tts[.. tts.len() - expr_len - 1]`
reversed); `offs` is `offs_until_binop_partner`. -/
def binopPartnerSearch : List Tt → Nat → Except String BinopScan
  | [], offs => .ok (.partner offs)
  | tt :: rest, offs =>
    match tt with
    | Tt.group d _ =>
      match d with
      -- `{0} & 7;` is invalid and `{}` is. => all &*- are unary ops.
      | Delimiter.brace => .ok (.unaryAll offs)
      -- Both [] and () are other-parties/partners of binops.
      | Delimiter.parenthesis => .ok (.partner offs)
      | Delimiter.bracket => .ok (.partner offs)
      | Delimiter.none => .error "We do not support groups delimitered by none yet"
    | Tt.ident name =>
      -- any ident other than the `mut` keyword is part of the binop partner.
      if name ≠ "mut" then .ok (.partner offs)
      else binopPartnerSearch rest (offs + 1)
    | Tt.punct c _ =>
      match c with
      -- ; , = : all leading &*- were unary ops.
      | ';' => .ok (.unaryAll offs)
      | ',' => .ok (.unaryAll offs)
      | '=' => .ok (.unaryAll offs)
      -- continue the search
      | '&' => binopPartnerSearch rest (offs + 1)
      | '*' => binopPartnerSearch rest (offs + 1)
      | '-' => binopPartnerSearch rest (offs + 1)
      | _ => .error "Binop partner search encountered punct"
    | Tt.lit _ => .ok (.partner offs)

/-- Is this token a `&` punctuation?  Used for the `&&` two-token binop
test (`p2.as_char() == '&'`, line 238). -/
def isAmpPunct : Tt → Bool
  | Tt.punct c _ => c = '&'
  | _ => false

/-- The outer loop of `expression_length` (lines 119-259).  The list holds
the not-yet-scanned tokens in reverse order (the token nearest the trigger
first, i.e. `tts[tts.len() - 1 - expr_len]` is the head); `exprLen` and
`lastWasPunctuation` are the mutable locals of the source. -/
def exprLengthAux : List Tt → Nat → Bool → Except String Nat
  | [], exprLen, _ => .ok exprLen
  | tt :: rest, exprLen, lastWasPunctuation =>
    match tt with
    | Tt.group _ _ => exprLengthAux rest (exprLen + 1) true
    | Tt.ident name =>
      -- two idents following another stop the scan (`if <something>.foo!()`),
      -- except the keyword `mut`, since `&mut` is usually prefixed to an
      -- expression (lines 130-139).
      if lastWasPunctuation = false ∧ name ≠ "mut" then .ok exprLen
      else exprLengthAux rest (exprLen + 1) false
    | Tt.lit _ => exprLengthAux rest (exprLen + 1) false
    | Tt.punct c sp =>
      match c, sp with
      -- no expression termination
      | '.', Spacing.alone => exprLengthAux rest (exprLen + 1) true
      | '?', _ => exprLengthAux rest (exprLen + 1) true
      | '!', _ => exprLengthAux rest (exprLen + 1) true
      -- these terminate expressions
      | '.', Spacing.joint => .ok exprLen
      | '&', Spacing.joint => .ok exprLen
      | ',', _ => .ok exprLen
      | ';', _ => .ok exprLen
      | '+', _ => .ok exprLen
      | '/', _ => .ok exprLen
      | '%', _ => .ok exprLen
      | '=', _ => .ok exprLen
      | '<', _ => .ok exprLen
      | '>', _ => .ok exprLen
      | '|', _ => .ok exprLen
      | '^', _ => .ok exprLen
      -- ambiguous unary/binary operators
      | '&', _ | '*', _ | '-', _ =>
        match binopPartnerSearch rest 0 with
        | .error msg => .error msg
        | .ok (BinopScan.unaryAll offs) => .ok (exprLen + offs + 1)
        | .ok (BinopScan.partner offs) =>
          -- If there is nothing beyond the one unary op in tts,
          -- no binop partner could be found (lines 223-225).
          if offs = 0 then .ok exprLen
          else
            match rest[offs - 1]? with
            | Option.none => .error "index out of bounds"
            | some (Tt.group _ _) => .error "internal error: entered unreachable code"
            | some (Tt.lit _) => .error "internal error: entered unreachable code"
            | some (Tt.ident _) => .error "Cannot start a binop chain with ident"
            | some (Tt.punct c1 sp1) =>
              match (if offs = 1 then some (Tt.punct c sp) else rest[offs - 2]?) with
              | Option.none => .error "index out of bounds"
              | some second =>
                let binopTts : Nat :=
                  if sp1 = Spacing.joint ∧ c1 = '&' ∧ isAmpPunct second then 2 else 1
                .ok (exprLen + 1 + offs - binopTts)
      | _, _ => .error "Encountered unsupported punctuation"

/-- Mirror of `expression_length` (lines 118-261): how many of the trailing tokens of
`tts` form the expression a postfix macro call would consume. -/
def expressionLength (tts : List Tt) : Except String Nat :=
  exprLengthAux tts.reverse 0 true

/-- Mirror of `prepend_macro_arg_to_group` (lines 263-288): build the rewritten
argument group from the receiver tokens and the original call group
(delimiter and stream). -/
def prependMacroArgToGroup (tokens : List Tt) (delim : Delimiter) (stream : List Tt) :
    Delimiter × List Tt :=
  let expr : Tt :=
    match tokens with
    | [Tt.lit s] => Tt.lit s
    | [Tt.ident s] => Tt.ident s
    | _ => Tt.group Delimiter.brace tokens
  let resStream : List Tt :=
    if stream.isEmpty then [expr]
    else expr :: Tt.punct ',' Spacing.alone :: stream
  (delim, resStream)

/-- Errors of the walker: `panic` models a `panic!` of the source, `fuel`
is the modelling artifact for exhausting the re-visit fuel. -/
inductive RErr
  | panic (msg : String)
  | fuel
deriving DecidableEq

/-- The trigger test of `visit_stream` (lines 51-57) on the accumulator
(stored most-recent first): if the last three emitted tokens are
`Punct('.', Alone)`, `Ident`, `Punct('!', Alone)`, pop all three and
return the macro ident and bang (the `.` is discarded, lines 60-63). -/
def popTrigger : List Tt → Option (Tt × Tt × List Tt)
  | Tt.punct '!' Spacing.alone :: Tt.ident name :: Tt.punct '.' Spacing.alone :: res3 =>
    some (Tt.ident name, Tt.punct '!' Spacing.alone, res3)
  | _ => none

/-- One level of `Visitor::visit_stream` (lines 43-103).  `revRes` is the
output buffer `res`, stored most-recent first; `revisit` performs the
re-visit of the freshly built group (`self.visit_group(group)` on line 88
in the postfix branch, a recursion that is not structurally decreasing and
is therefore paid for by the caller's fuel). -/
def visitLevel (revisit : List Tt → Except RErr (List Tt)) :
    List Tt → List Tt → Except RErr (List Tt)
  | revRes, [] => .ok revRes.reverse
  | revRes, tt :: rest =>
    match tt with
    | Tt.group d inner =>
      match popTrigger revRes with
      | some (mac, bang, res3) =>
        -- Walk the chain of tokens that form the receiver expression.
        match expressionLength res3.reverse with
        | .error msg => .error (RErr.panic msg)
        | .ok exprLen =>
          if exprLen = 0 then
            .error (RErr.panic "expected something before the postfix macro invocation")
          else
            -- Build the group (line 75): visit the call group first.
            match visitLevel revisit [] inner with
            | .error e => .error e
            | .ok grStream =>
              let argTokens := (res3.take exprLen).reverse
              let newGroup := prependMacroArgToGroup argTokens d grStream
              -- line 88 re-visits the just-built group before pushing it.
              match revisit newGroup.snd with
              | .error e => .error e
              | .ok finalStream =>
                visitLevel revisit
                  (Tt.group newGroup.fst finalStream :: bang :: mac :: res3.drop exprLen)
                  rest
      | Option.none =>
        match visitLevel revisit [] inner with
        | .error e => .error e
        | .ok inner2 => visitLevel revisit (Tt.group d inner2 :: revRes) rest
    | _ => visitLevel revisit (tt :: revRes) rest

/-- Mirror of `Visitor::visit_stream`, with a fuel bound on the depth of nested
re-visits of freshly built groups; all other recursion is structural. -/
def visitStream : Nat → List Tt → Except RErr (List Tt)
  | 0, stream => visitLevel (fun _ => .error RErr.fuel) [] stream
  | fuel + 1, stream => visitLevel (visitStream fuel) [] stream

/-- Is the token a Literal or an Identifier?  (The `matches!` test of
`prepend_macro_arg_to_group`, line 270.) -/
def litOrIdent : Tt → Bool
  | Tt.lit _ => true
  | Tt.ident _ => true
  | _ => false

/-- Is the token an Alone-spaced `.` punctuation (the first token of a
postfix-macro trigger)? -/
def isDotAlone : Tt → Bool
  | Tt.punct '.' Spacing.alone => true
  | _ => false

/-- Is the token an identifier? -/
def isIdentTok : Tt → Bool
  | Tt.ident _ => true
  | _ => false

/-- Is the token an Alone-spaced `!` punctuation? -/
def isBangAlone : Tt → Bool
  | Tt.punct '!' Spacing.alone => true
  | _ => false

/-- Is the token a Group? -/
def isGroupTok : Tt → Bool
  | Tt.group _ _ => true
  | _ => false

/-- Does the predicate hold of a present token? -/
def optIs (p : Tt → Bool) : Option Tt → Bool
  | some t => p t
  | _ => false

/-- The four consecutive (possibly missing) tokens do NOT form a
postfix-macro trigger window `Punct('.', Alone), Ident, Punct('!', Alone),
Group`. -/
def quadOk (a b c d : Option Tt) : Bool :=
  !(optIs isDotAlone a && optIs isIdentTok b && optIs isBangAlone c &&
    optIs isGroupTok d)

/-- No postfix-macro trigger window occurs anywhere in the list, at any
nesting depth (every Group's inner stream is also trigger-free). -/
def listNoTrig : List Tt → Bool
  | [] => true
  | tt :: rest =>
    (match tt with
     | Tt.group _ inner => listNoTrig inner
     | _ => true) &&
    (quadOk (some tt) rest[0]? rest[1]? rest[2]? && listNoTrig rest)
termination_by l => sizeOf l
decreasing_by all_goals (simp_wf; try omega)

/-- One atomic unit of token content: a Group contributes its delimiter
(one atom) plus, recursively, the atoms of its inner stream; the other
token kinds contribute one atom each.  Token multisets are compared
through these atoms, so that moving tokens into an inserted wrapper Group
does not change the accounting. -/
inductive Atom
  | g (d : Delimiter)
  | id (s : String)
  | p (c : Char) (sp : Spacing)
  | l (s : String)
deriving DecidableEq

/-- The multiset of atoms of a token stream, at all nesting depths. -/
def listAtoms : List Tt → Multiset Atom
  | [] => 0
  | tt :: rest =>
    (match tt with
     | Tt.group d inner => Atom.g d ::ₘ listAtoms inner
     | Tt.ident s => {Atom.id s}
     | Tt.punct c sp => {Atom.p c sp}
     | Tt.lit s => {Atom.l s}) + listAtoms rest
termination_by l => sizeOf l
decreasing_by all_goals (simp_wf; try omega)

/-- The atom of the trigger dot that a rewrite discards. -/
def dotAtom : Atom := Atom.p '.' Spacing.alone

/-- The atom of the separator comma that a rewrite may insert. -/
def commaAtom : Atom := Atom.p ',' Spacing.alone

/-- The atom of the Brace wrapper Group that a rewrite may insert. -/
def braceAtom : Atom := Atom.g Delimiter.brace

/-- Claim C2: evaluation of the scanner at the disputed inputs.  For
`y * x.f!()` (scanner prefix `[y, *, x]`) the receiver has length 1, as the
claim states; but for `*x.f!()` (scanner prefix `[*, x]`) the receiver also
has length 1: the `offs_until_binop_partner == 0` branch (lines 223-225)
leaves the loop without absorbing the operator, even though the comment
there concludes the `*` "was an unary op", so the unary `*` is left outside
the receiver instead of being absorbed as the claim states. -/
theorem c2_unary_star_not_absorbed :
    expressionLength [Tt.ident "y", Tt.punct '*' Spacing.alone, Tt.ident "x"] = .ok 1 ∧
    expressionLength [Tt.punct '*' Spacing.alone, Tt.ident "x"] = .ok 1 :=
  ⟨rfl, rfl⟩

/-- Claim C3, counterexample: for `{ } & x.f!()` the scanner returns 2 (the
`&` and `x` only): the Brace group behind the resolved-unary `&` is *not*
subsequently scanned and included in the receiver, contradicting the claim
that the outer scan continues (which would give a receiver of length 3). -/
theorem c3_counterexample :
    expressionLength [Tt.group Delimiter.brace [], Tt.punct '&' Spacing.alone,
      Tt.ident "x"] = .ok 2 ∧
    ¬ expressionLength [Tt.group Delimiter.brace [], Tt.punct '&' Spacing.alone,
      Tt.ident "x"] = .ok 3 := by
  refine ⟨rfl, ?_⟩
  intro h
  simp [expressionLength, exprLengthAux, binopPartnerSearch] at h

/-- Claim C3, amended: when the binop-partner search resolves the operator as
unary because a Brace-delimited Group (or a `;`, `,`, `=` punctuation) lies
behind it, the operator is absorbed into the receiver and the whole scan
stops at once (`break 'outer`): the resolving token itself and everything
before it are excluded, whatever they are. -/
theorem c3_amended_unary_absorb_then_stop (pre bs : List Tt) (recv : String) :
    expressionLength (pre ++ [Tt.group Delimiter.brace bs,
      Tt.punct '&' Spacing.alone, Tt.ident recv]) = .ok 2 ∧
    expressionLength (pre ++ [Tt.punct ';' Spacing.alone,
      Tt.punct '-' Spacing.alone, Tt.ident recv]) = .ok 2 := by
  constructor <;>
    simp [expressionLength, exprLengthAux, binopPartnerSearch, List.reverse_append]

/-- Claim C4, counterexample: the main backward scan does *not* fail on a
delimiter-less Group: for the scanner input `[Group(None, []), x]` the scan
includes the Group and returns 2. -/
theorem c4_counterexample :
    expressionLength [Tt.group Delimiter.none [], Tt.ident "x"] = .ok 2 :=
  rfl

/-- Claim C4, amended: a delimiter-less Group is fatal exactly where the
source panics: when it is encountered during the binop-partner search; in
the main backward scan a delimiter-less Group is included in the receiver
like any other Group. -/
theorem c4_amended_none_group (pre l l2 : List Tt) (recv : String) :
    expressionLength (pre ++ [Tt.group Delimiter.none l,
      Tt.punct '*' Spacing.alone, Tt.ident recv]) =
      .error "We do not support groups delimitered by none yet" ∧
    expressionLength [Tt.group Delimiter.none l2, Tt.ident recv] = .ok 2 := by
  constructor <;>
    simp [expressionLength, exprLengthAux, binopPartnerSearch, List.reverse_append]

/-- Claim C5: a resolved-binary `&` immediately preceded by a Joint-spaced
`&` is the two-token binop `&&`: for `a && recv.f!()` the receiver is
`recv` alone (length 1), both `&` tokens being excluded, for any prefix. -/
theorem c5_and_and_binop (pre : List Tt) (recv : String) :
    expressionLength (pre ++ [Tt.ident "a", Tt.punct '&' Spacing.joint,
      Tt.punct '&' Spacing.alone, Tt.ident recv]) = .ok 1 := by
  simp [expressionLength, exprLengthAux, binopPartnerSearch, List.reverse_append,
    isAmpPunct]

/-- Claim C7: a trigger recognized with nothing before it (trigger at the
start of the sequence, or preceded only by a receiver-terminating token
such as `,`) makes the walker fail fatally with the empty-receiver panic,
for every fuel, macro name, call-group and continuation. -/
theorem c7_empty_receiver_fatal (fuel : Nat) (name : String) (d : Delimiter)
    (inner rest : List Tt) :
    visitStream fuel ([Tt.punct '.' Spacing.alone, Tt.ident name,
        Tt.punct '!' Spacing.alone, Tt.group d inner] ++ rest) =
      .error (RErr.panic "expected something before the postfix macro invocation") ∧
    visitStream fuel (Tt.punct ',' Spacing.alone :: Tt.punct '.' Spacing.alone ::
        Tt.ident name :: Tt.punct '!' Spacing.alone :: Tt.group d inner :: rest) =
      .error (RErr.panic "expected something before the postfix macro invocation") := by
  cases fuel <;>
    constructor <;>
      simp [visitStream, visitLevel, popTrigger, expressionLength, exprLengthAux]

/-- Claim C8: the argument builder: the call Group's delimiter is kept; the
receiver run is passed directly as the first argument exactly when it is a
single Literal or Identifier token, and is wrapped in a Brace-delimited
Group otherwise; the original argument tokens follow after an Alone-spaced
comma exactly when they are non-empty. -/
theorem c8_builder_shape (tokens : List Tt) (delim : Delimiter) (stream : List Tt) :
    (prependMacroArgToGroup tokens delim stream).fst = delim ∧
    (∀ t, tokens = [t] → litOrIdent t = true →
      (prependMacroArgToGroup tokens delim stream).snd.head? = some t) ∧
    (∀ t, tokens = [t] → litOrIdent t = false →
      (prependMacroArgToGroup tokens delim stream).snd.head? =
        some (Tt.group Delimiter.brace tokens)) ∧
    (tokens.length ≠ 1 →
      (prependMacroArgToGroup tokens delim stream).snd.head? =
        some (Tt.group Delimiter.brace tokens)) ∧
    (stream = [] → (prependMacroArgToGroup tokens delim stream).snd.tail? =
      some []) ∧
    (stream ≠ [] → (prependMacroArgToGroup tokens delim stream).snd.tail? =
      some (Tt.punct ',' Spacing.alone :: stream)) := by
  refine ⟨rfl, ?_, ?_, ?_, ?_, ?_⟩
  · rintro t rfl ht
    cases t <;> simp_all [prependMacroArgToGroup, litOrIdent] <;>
      by_cases hs : stream = [] <;> simp [hs]
  · rintro t rfl ht
    cases t <;> simp_all [prependMacroArgToGroup, litOrIdent] <;>
      by_cases hs : stream = [] <;> simp [hs]
  · intro hlen
    match tokens with
    | [] => by_cases hs : stream = [] <;> simp [prependMacroArgToGroup, hs]
    | [t] => exact absurd rfl hlen
    | t1 :: t2 :: ts => by_cases hs : stream = [] <;>
        simp [prependMacroArgToGroup, hs]
  · rintro rfl
    cases tokens with
    | nil => simp [prependMacroArgToGroup]
    | cons t ts => cases t <;> cases ts <;> simp [prependMacroArgToGroup]
  · intro hs
    have : ¬ stream.isEmpty := by simpa [List.isEmpty_iff] using hs
    cases tokens with
    | nil => simp [prependMacroArgToGroup, this]
    | cons t ts => cases t <;> cases ts <;> simp [prependMacroArgToGroup, this]

/-- A `partner` outcome of the binop-partner search moved at most through
the searched slice, and every token it stepped over (those at indices below
`r - j`) is inconclusive: the `mut` keyword or a `&`/`*`/`-` punctuation. -/
theorem binopPartnerSearch_partner_facts (l : List Tt) :
    ∀ j r, binopPartnerSearch l j = .ok (BinopScan.partner r) →
      j ≤ r ∧ r - j ≤ l.length ∧
      ∀ i t, i < r - j → l[i]? = some t →
        t = Tt.ident "mut" ∨ ∃ c sp, t = Tt.punct c sp ∧ (c = '&' ∨ c = '*' ∨ c = '-') := by
  induction l with
  | nil =>
    intro j r h
    simp only [binopPartnerSearch, Except.ok.injEq, BinopScan.partner.injEq] at h
    subst h
    exact ⟨le_refl _, by simp, fun i t hi => by omega⟩
  | cons tt rest ih =>
    intro j r h
    have step : ∀ hrec : binopPartnerSearch rest (j + 1) = .ok (BinopScan.partner r),
        (tt = Tt.ident "mut" ∨
          ∃ c sp, tt = Tt.punct c sp ∧ (c = '&' ∨ c = '*' ∨ c = '-')) →
        j ≤ r ∧ r - j ≤ (tt :: rest).length ∧
        ∀ i t, i < r - j → (tt :: rest)[i]? = some t →
          t = Tt.ident "mut" ∨ ∃ c sp, t = Tt.punct c sp ∧ (c = '&' ∨ c = '*' ∨ c = '-') := by
      intro hrec htt
      obtain ⟨h1, h2, h3⟩ := ih (j + 1) r hrec
      refine ⟨by omega, by simp; omega, ?_⟩
      intro i t hi ht
      match i with
      | 0 => simp only [List.getElem?_cons_zero, Option.some.injEq] at ht; subst ht; exact htt
      | i + 1 =>
        rw [List.getElem?_cons_succ] at ht
        exact h3 i t (by omega) ht
    cases tt with
    | group d s =>
      cases d with
      | parenthesis =>
        simp only [binopPartnerSearch, Except.ok.injEq, BinopScan.partner.injEq] at h
        subst h
        exact ⟨le_refl _, by simp, fun i t hi => by omega⟩
      | bracket =>
        simp only [binopPartnerSearch, Except.ok.injEq, BinopScan.partner.injEq] at h
        subst h
        exact ⟨le_refl _, by simp, fun i t hi => by omega⟩
      | brace => simp [binopPartnerSearch] at h
      | none => simp [binopPartnerSearch] at h
    | ident name =>
      simp only [binopPartnerSearch] at h
      split at h
      · simp only [Except.ok.injEq, BinopScan.partner.injEq] at h
        subst h
        exact ⟨le_refl _, by simp, fun i t hi => by omega⟩
      · rename_i hname
        exact step h (Or.inl (by simp at hname; rw [hname]))
    | punct c sp =>
      simp only [binopPartnerSearch] at h
      split at h
      · simp at h
      · simp at h
      · simp at h
      · exact step h (Or.inr ⟨'&', sp, rfl, Or.inl rfl⟩)
      · exact step h (Or.inr ⟨'*', sp, rfl, Or.inr (Or.inl rfl)⟩)
      · exact step h (Or.inr ⟨'-', sp, rfl, Or.inr (Or.inr rfl)⟩)
      · simp at h
    | lit s =>
      simp only [binopPartnerSearch, Except.ok.injEq, BinopScan.partner.injEq] at h
      subst h
      exact ⟨le_refl _, by simp, fun i t hi => by omega⟩

/-- A `unaryAll` outcome of the binop-partner search points (at index
`r - j`) at the resolving token, which is a Brace-delimited Group or a
`;`/`,`/`=` punctuation — in particular not an Alone-spaced `.`. -/
theorem binopPartnerSearch_unaryAll_facts (l : List Tt) :
    ∀ j r, binopPartnerSearch l j = .ok (BinopScan.unaryAll r) →
      j ≤ r ∧ r - j < l.length ∧
      ∀ t, l[r - j]? = some t → t ≠ Tt.punct '.' Spacing.alone := by
  induction l with
  | nil => intro j r h; simp [binopPartnerSearch] at h
  | cons tt rest ih =>
    intro j r h
    have step : ∀ hrec : binopPartnerSearch rest (j + 1) = .ok (BinopScan.unaryAll r),
        j ≤ r ∧ r - j < (tt :: rest).length ∧
        ∀ t, (tt :: rest)[r - j]? = some t → t ≠ Tt.punct '.' Spacing.alone := by
      intro hrec
      obtain ⟨h1, h2, h3⟩ := ih (j + 1) r hrec
      refine ⟨by omega, by simp; omega, ?_⟩
      intro t ht
      have hrj : r - j = (r - (j + 1)) + 1 := by omega
      rw [hrj, List.getElem?_cons_succ] at ht
      exact h3 t ht
    have stop : ∀ (u : Tt), u = tt → r = j →
        (u ≠ Tt.punct '.' Spacing.alone) →
        j ≤ r ∧ r - j < (tt :: rest).length ∧
        ∀ t, (tt :: rest)[r - j]? = some t → t ≠ Tt.punct '.' Spacing.alone := by
      rintro u hu rfl hne
      refine ⟨le_refl _, by simp, ?_⟩
      intro t ht
      simp only [Nat.sub_self, List.getElem?_cons_zero, Option.some.injEq] at ht
      subst ht
      rw [← hu]
      exact hne
    cases tt with
    | group d s =>
      cases d with
      | brace =>
        simp only [binopPartnerSearch, Except.ok.injEq, BinopScan.unaryAll.injEq] at h
        exact stop _ rfl h.symm (fun hc => Tt.noConfusion hc)
      | parenthesis => simp [binopPartnerSearch] at h
      | bracket => simp [binopPartnerSearch] at h
      | none => simp [binopPartnerSearch] at h
    | ident name =>
      simp only [binopPartnerSearch] at h
      split at h
      · simp at h
      · exact step h
    | punct c sp =>
      simp only [binopPartnerSearch] at h
      split at h
      · simp only [Except.ok.injEq, BinopScan.unaryAll.injEq] at h
        refine stop _ rfl h.symm ?_
        intro hc; injection hc with hc1 hc2; exact absurd hc1 (by decide)
      · simp only [Except.ok.injEq, BinopScan.unaryAll.injEq] at h
        refine stop _ rfl h.symm ?_
        intro hc; injection hc with hc1 hc2; exact absurd hc1 (by decide)
      · simp only [Except.ok.injEq, BinopScan.unaryAll.injEq] at h
        refine stop _ rfl h.symm ?_
        intro hc; injection hc with hc1 hc2; exact absurd hc1 (by decide)
      · exact step h
      · exact step h
      · exact step h
      · simp at h
    | lit s => simp [binopPartnerSearch] at h

/-- Main scanner loop invariant: a successful scan accumulates at most the
whole remaining buffer (`n - k ≤ l.length`), and the token at which it
stopped (index `n - k` of the buffer, if any) is never an Alone-spaced `.`
punctuation. -/
theorem exprLengthAux_facts (l : List Tt) :
    ∀ k lwp n, exprLengthAux l k lwp = .ok n →
      k ≤ n ∧ n - k ≤ l.length ∧
      ∀ t, l[n - k]? = some t → t ≠ Tt.punct '.' Spacing.alone := by
  induction l with
  | nil =>
    intro k lwp n h
    simp only [exprLengthAux, Except.ok.injEq] at h
    subst h
    exact ⟨le_refl _, by simp, fun t ht => by simp at ht⟩
  | cons tt rest ih =>
    intro k lwp n h
    -- the token at the cursor is included and the scan continues
    have step : ∀ lwp2, exprLengthAux rest (k + 1) lwp2 = .ok n →
        k ≤ n ∧ n - k ≤ (tt :: rest).length ∧
        ∀ t, (tt :: rest)[n - k]? = some t → t ≠ Tt.punct '.' Spacing.alone := by
      intro lwp2 hrec
      obtain ⟨h1, h2, h3⟩ := ih (k + 1) lwp2 n hrec
      refine ⟨by omega, by simp; omega, ?_⟩
      intro t ht
      have hnk : n - k = (n - (k + 1)) + 1 := by omega
      rw [hnk, List.getElem?_cons_succ] at ht
      exact h3 t ht
    -- the scan stops at the token at the cursor
    have stop : ∀ (u : Tt), u = tt → n = k →
        u ≠ Tt.punct '.' Spacing.alone →
        k ≤ n ∧ n - k ≤ (tt :: rest).length ∧
        ∀ t, (tt :: rest)[n - k]? = some t → t ≠ Tt.punct '.' Spacing.alone := by
      rintro u hu rfl hne
      refine ⟨le_refl _, by simp, ?_⟩
      intro t ht
      simp only [Nat.sub_self, List.getElem?_cons_zero, Option.some.injEq] at ht
      subst ht
      rw [← hu]
      exact hne
    cases tt with
    | group d s => exact step _ h
    | ident name =>
      simp only [exprLengthAux] at h
      split at h
      · simp only [Except.ok.injEq] at h
        exact stop _ rfl h.symm (fun hc => Tt.noConfusion hc)
      · exact step _ h
    | lit s => exact step _ h
    | punct c sp =>
      simp only [exprLengthAux] at h
      split at h
      -- '.', Alone
      · exact step _ h
      -- '?'
      · exact step _ h
      -- '!'
      · exact step _ h
      -- '.', Joint
      · simp only [Except.ok.injEq] at h
        refine stop _ rfl h.symm ?_
        intro hc; injection hc with hc1 hc2; exact absurd hc2 (by decide)
      -- '&', Joint
      · simp only [Except.ok.injEq] at h
        refine stop _ rfl h.symm ?_
        intro hc; injection hc with hc1 hc2; exact absurd hc1 (by decide)
      -- the ten terminator punctuation characters
      · simp only [Except.ok.injEq] at h
        refine stop _ rfl h.symm ?_
        intro hc; injection hc with hc1 hc2; exact absurd hc1 (by decide)
      · simp only [Except.ok.injEq] at h
        refine stop _ rfl h.symm ?_
        intro hc; injection hc with hc1 hc2; exact absurd hc1 (by decide)
      · simp only [Except.ok.injEq] at h
        refine stop _ rfl h.symm ?_
        intro hc; injection hc with hc1 hc2; exact absurd hc1 (by decide)
      · simp only [Except.ok.injEq] at h
        refine stop _ rfl h.symm ?_
        intro hc; injection hc with hc1 hc2; exact absurd hc1 (by decide)
      · simp only [Except.ok.injEq] at h
        refine stop _ rfl h.symm ?_
        intro hc; injection hc with hc1 hc2; exact absurd hc1 (by decide)
      · simp only [Except.ok.injEq] at h
        refine stop _ rfl h.symm ?_
        intro hc; injection hc with hc1 hc2; exact absurd hc1 (by decide)
      · simp only [Except.ok.injEq] at h
        refine stop _ rfl h.symm ?_
        intro hc; injection hc with hc1 hc2; exact absurd hc1 (by decide)
      · simp only [Except.ok.injEq] at h
        refine stop _ rfl h.symm ?_
        intro hc; injection hc with hc1 hc2; exact absurd hc1 (by decide)
      · simp only [Except.ok.injEq] at h
        refine stop _ rfl h.symm ?_
        intro hc; injection hc with hc1 hc2; exact absurd hc1 (by decide)
      · simp only [Except.ok.injEq] at h
        refine stop _ rfl h.symm ?_
        intro hc; injection hc with hc1 hc2; exact absurd hc1 (by decide)
      -- '&' / '*' / '-' : the binop-partner search
      all_goals {
        rename_i heq
        first
        -- the final match arm: unsupported punctuation is a fatal error
        | exact absurd h (by simp)
        -- the three ambiguous-operator arms
        | cases hbs : binopPartnerSearch rest 0 with
        | error msg => simp only [hbs] at h; exact absurd h (by simp)
        | ok sc =>
          cases sc with
          | unaryAll offs =>
            simp only [hbs] at h
            rw [Except.ok.injEq] at h
            obtain ⟨g1, g2, g3⟩ := binopPartnerSearch_unaryAll_facts rest 0 offs hbs
            refine ⟨by omega, by simp; omega, ?_⟩
            intro t ht
            have hnk : n - k = offs + 1 := by omega
            rw [hnk, List.getElem?_cons_succ] at ht
            exact g3 t (by simpa using ht)
          | partner offs =>
            simp only [hbs] at h
            by_cases hoffs : offs = 0
            · subst hoffs
              rw [if_pos rfl, Except.ok.injEq] at h
              refine stop _ rfl h.symm ?_
              intro hc; injection hc with hc1 hc2; exact absurd hc1 (by decide)
            · rw [if_neg hoffs] at h
              obtain ⟨g1, g2, g3⟩ := binopPartnerSearch_partner_facts rest 0 offs hbs
              cases hfst : rest[offs - 1]? with
              | none => simp only [hfst] at h; exact absurd h (by simp)
              | some t0 =>
                simp only [hfst] at h
                cases t0 with
                | group d2 s2 => exact absurd h (by simp)
                | lit s2 => exact absurd h (by simp)
                | ident s2 => exact absurd h (by simp)
                | punct c1 sp1 =>
                  -- the scan stops after excluding the one- or two-token binop;
                  -- the new stop token is `first` (one-token case) or `second`
                  -- (the `&&` case), both of which are `&`, `*` or `-` puncts.
                  by_cases ho1 : offs = 1
                  · simp only [if_pos ho1] at h
                    split at h <;> rw [Except.ok.injEq] at h
                    · -- `&&`: the operator itself is the new stop token
                      refine ⟨by omega, by simp; omega, ?_⟩
                      intro t ht
                      have hnk : n - k = 0 := by omega
                      rw [hnk, List.getElem?_cons_zero, Option.some.injEq] at ht
                      subst ht
                      intro hc; injection hc with hc1 hc2
                      exact absurd hc1 (by decide)
                    · -- one-token binop: `first` is the new stop token
                      refine ⟨by omega, by simp; omega, ?_⟩
                      intro t ht
                      have hnk : n - k = (offs - 1) + 1 := by omega
                      rw [hnk, List.getElem?_cons_succ] at ht
                      rw [ht, Option.some.injEq] at hfst
                      subst hfst
                      have := g3 (offs - 1) (Tt.punct c1 sp1) (by omega) ht
                      rcases this with hmut | ⟨c2, sp2, heq2, hc2⟩
                      · exact absurd hmut (fun hc => Tt.noConfusion hc)
                      · intro hc; injection hc with hd1 hd2
                        injection heq2 with he1 he2
                        rw [he1] at hd1
                        rcases hc2 with rfl | rfl | rfl <;> exact absurd hd1 (by decide)
                  · cases hsnd : rest[offs - 2]? with
                    | none => simp only [if_neg ho1, hsnd] at h; exact absurd h (by simp)
                    | some second =>
                      simp only [if_neg ho1, hsnd] at h
                      split at h <;> rw [Except.ok.injEq] at h
                      · -- `&&`: `second` (a `&` punct) is the new stop token
                        rename_i hbt
                        refine ⟨by omega, by simp; omega, ?_⟩
                        intro t ht
                        have hnk : n - k = (offs - 2) + 1 := by omega
                        rw [hnk, List.getElem?_cons_succ] at ht
                        rw [ht, Option.some.injEq] at hsnd
                        subst hsnd
                        have hamp := hbt.2.2
                        cases t with
                        | punct c2 sp2 =>
                          intro hc; injection hc with hc1 hc2
                          simp only [isAmpPunct, decide_eq_true_eq] at hamp
                          rw [hc1] at hamp
                          exact absurd hamp (by decide)
                        | group d3 s3 => exact fun hc => Tt.noConfusion hc
                        | ident s3 => exact fun hc => Tt.noConfusion hc
                        | lit s3 => exact fun hc => Tt.noConfusion hc
                      · -- one-token binop: `first` is the new stop token
                        refine ⟨by omega, by simp; omega, ?_⟩
                        intro t ht
                        have hnk : n - k = (offs - 1) + 1 := by omega
                        rw [hnk, List.getElem?_cons_succ] at ht
                        rw [ht, Option.some.injEq] at hfst
                        subst hfst
                        have := g3 (offs - 1) (Tt.punct c1 sp1) (by omega) ht
                        rcases this with hmut | ⟨c2, sp2, heq2, hc2⟩
                        · exact absurd hmut (fun hc => Tt.noConfusion hc)
                        · intro hc; injection hc with hd1 hd2
                          injection heq2 with he1 he2
                          rw [he1] at hd1
                          rcases hc2 with rfl | rfl | rfl <;> exact absurd hd1 (by decide)
      }

/-- Claim C8, witness: the builder theorem applied at concrete inputs. -/
theorem c8_builder_shape_witness :
    (prependMacroArgToGroup [Tt.ident "v"] Delimiter.bracket [Tt.lit "1"]).snd.head? =
      some (Tt.ident "v") ∧
    (prependMacroArgToGroup [Tt.group Delimiter.parenthesis []] Delimiter.parenthesis
        []).snd.head? =
      some (Tt.group Delimiter.brace [Tt.group Delimiter.parenthesis []]) ∧
    (prependMacroArgToGroup [] Delimiter.parenthesis [Tt.lit "1"]).snd.tail? =
      some (Tt.punct ',' Spacing.alone :: [Tt.lit "1"]) :=
  ⟨(c8_builder_shape [Tt.ident "v"] Delimiter.bracket [Tt.lit "1"]).2.1 _ rfl rfl,
   (c8_builder_shape [Tt.group Delimiter.parenthesis []] Delimiter.parenthesis
      []).2.2.1 _ rfl rfl,
   (c8_builder_shape [] Delimiter.parenthesis [Tt.lit "1"]).2.2.2.2.2 (by simp)⟩

/-- Claim C9: on every slice on which the scanner succeeds, the returned
receiver length is at most the slice length, so the walker's removal of the
last `expr_len` tokens from its output buffer is always in bounds. -/
theorem c9_receiver_within_bounds (tts : List Tt) (n : Nat)
    (h : expressionLength tts = .ok n) : n ≤ tts.length := by
  obtain ⟨h1, h2, h3⟩ := exprLengthAux_facts tts.reverse 0 true n h
  simpa using h2

/-- Claim C9, witness: the bound applied at a concrete input. -/
theorem c9_receiver_within_bounds_witness :
    expressionLength [Tt.ident "x"] = .ok 1 ∧ 1 ≤ [Tt.ident "x"].length :=
  ⟨rfl, c9_receiver_within_bounds [Tt.ident "x"] 1 rfl⟩


theorem isDotAlone_iff (t : Tt) :
    isDotAlone t = true ↔ t = Tt.punct '.' Spacing.alone := by
  unfold isDotAlone
  split
  · simp_all
  · rename_i hne
    simp only [Bool.false_eq_true, false_iff]
    intro hc
    subst hc
    exact hne rfl

theorem isBangAlone_iff (t : Tt) :
    isBangAlone t = true ↔ t = Tt.punct '!' Spacing.alone := by
  unfold isBangAlone
  split
  · simp_all
  · rename_i hne
    simp only [Bool.false_eq_true, false_iff]
    intro hc
    subst hc
    exact hne rfl

theorem isIdentTok_iff (t : Tt) :
    isIdentTok t = true ↔ ∃ name, t = Tt.ident name := by
  cases t <;> simp [isIdentTok]

theorem isGroupTok_iff (t : Tt) :
    isGroupTok t = true ↔ ∃ d s, t = Tt.group d s := by
  cases t <;> simp [isGroupTok]


theorem quadOk_a_none (b c d : Option Tt) : quadOk Option.none b c d = true := by
  simp [quadOk, optIs]

theorem quadOk_b_none (a c d : Option Tt) : quadOk a Option.none c d = true := by
  simp [quadOk, optIs]

theorem quadOk_c_none (a b d : Option Tt) : quadOk a b Option.none d = true := by
  simp [quadOk, optIs]

theorem quadOk_d_none (a b c : Option Tt) : quadOk a b c Option.none = true := by
  simp [quadOk, optIs]

theorem quadOk_d_nonGroup (a b c : Option Tt) (t : Tt)
    (h : isGroupTok t = false) : quadOk a b c (some t) = true := by
  simp [quadOk, optIs, h]

theorem quadOk_a_nonDot (b c d : Option Tt) (t : Tt)
    (h : isDotAlone t = false) : quadOk (some t) b c d = true := by
  simp [quadOk, optIs, h]

theorem listNoTrig_nil : listNoTrig [] = true := by rw [listNoTrig.eq_1]

theorem listNoTrig_cons (tt : Tt) (rest : List Tt) :
    listNoTrig (tt :: rest) =
      ((match tt with
        | Tt.group _ inner => listNoTrig inner
        | _ => true) &&
       (quadOk (some tt) rest[0]? rest[1]? rest[2]? && listNoTrig rest)) := by
  cases tt with
  | group d inner => rw [listNoTrig.eq_2]
  | ident name => rw [listNoTrig.eq_3] <;> simp
  | punct c sp => rw [listNoTrig.eq_3] <;> simp
  | lit s => rw [listNoTrig.eq_3] <;> simp

/-- Index characterization of `listNoTrig`: every window of four
consecutive positions is trigger-free and every Group in the list has a
trigger-free inner stream. -/
theorem listNoTrig_iff (l : List Tt) :
    listNoTrig l = true ↔
      (∀ i : Nat, quadOk l[i]? l[i + 1]? l[i + 2]? l[i + 3]? = true) ∧
      (∀ (i : Nat) d inner, l[i]? = some (Tt.group d inner) → listNoTrig inner = true) := by
  induction l with
  | nil =>
    simp only [listNoTrig_nil, List.getElem?_nil, true_iff]
    exact ⟨fun i => quadOk_a_none _ _ _, fun i d inner h => by simp at h⟩
  | cons tt rest ih =>
    rw [listNoTrig_cons]
    constructor
    · intro h
      rw [Bool.and_eq_true, Bool.and_eq_true] at h
      obtain ⟨hdeep, hquad, hrest⟩ := h
      obtain ⟨ihq, ihg⟩ := ih.mp hrest
      constructor
      · intro i
        cases i with
        | zero => simpa using hquad
        | succ i => simpa using ihq i
      · intro i d inner hi
        cases i with
        | zero =>
          simp only [List.getElem?_cons_zero, Option.some.injEq] at hi
          subst hi
          simpa using hdeep
        | succ i => exact ihg i d inner (by simpa using hi)
    · rintro ⟨hq, hg⟩
      rw [Bool.and_eq_true, Bool.and_eq_true]
      refine ⟨?_, ?_, ?_⟩
      · cases htt : tt with
        | group d inner => exact hg 0 d inner (by simp [htt])
        | ident name => simp
        | punct c sp => simp
        | lit s => simp
      · simpa using hq 0
      · refine ih.mpr ⟨fun i => by simpa using hq (i + 1),
          fun i d inner hi => hg (i + 1) d inner (by simpa using hi)⟩

theorem getElem?_append_plus (xs ys : List Tt) (i : Nat) :
    (xs ++ ys)[xs.length + i]? = ys[i]? := by
  rw [List.getElem?_append, if_neg (by omega)]
  congr 1
  omega

theorem listNoTrig_append_right (xs ys : List Tt)
    (h : listNoTrig (xs ++ ys) = true) : listNoTrig ys = true := by
  obtain ⟨hq, hg⟩ := (listNoTrig_iff _).mp h
  refine (listNoTrig_iff _).mpr ⟨?_, ?_⟩
  · intro i
    have hw := hq (xs.length + i)
    have e1 : (xs ++ ys)[xs.length + i]? = ys[i]? := getElem?_append_plus xs ys i
    have e2 : (xs ++ ys)[xs.length + i + 1]? = ys[i + 1]? := by
      rw [show xs.length + i + 1 = xs.length + (i + 1) from by omega]
      exact getElem?_append_plus xs ys (i + 1)
    have e3 : (xs ++ ys)[xs.length + i + 2]? = ys[i + 2]? := by
      rw [show xs.length + i + 2 = xs.length + (i + 2) from by omega]
      exact getElem?_append_plus xs ys (i + 2)
    have e4 : (xs ++ ys)[xs.length + i + 3]? = ys[i + 3]? := by
      rw [show xs.length + i + 3 = xs.length + (i + 3) from by omega]
      exact getElem?_append_plus xs ys (i + 3)
    rw [e1, e2, e3, e4] at hw
    exact hw
  · intro i d inner hi
    refine hg (xs.length + i) d inner ?_
    rw [getElem?_append_plus xs ys i]
    exact hi

theorem listNoTrig_append_left (xs ys : List Tt)
    (h : listNoTrig (xs ++ ys) = true) : listNoTrig xs = true := by
  obtain ⟨hq, hg⟩ := (listNoTrig_iff _).mp h
  refine (listNoTrig_iff _).mpr ⟨?_, ?_⟩
  · intro i
    by_cases hib : i + 3 < xs.length
    · have hw := hq i
      rw [List.getElem?_append, if_pos (by omega), List.getElem?_append,
        if_pos (by omega), List.getElem?_append, if_pos (by omega),
        List.getElem?_append, if_pos (by omega)] at hw
      exact hw
    · rw [List.getElem?_eq_none (by omega : xs.length ≤ i + 3)]
      exact quadOk_d_none _ _ _
  · intro i d inner hi
    have hlt : i < xs.length := by
      rcases List.getElem?_eq_some_iff.mp hi with ⟨hl, _⟩
      exact hl
    refine hg i d inner ?_
    rw [List.getElem?_append, if_pos hlt]
    exact hi

/-- Appending a single token to a trigger-free list keeps it trigger-free,
provided the token's own inner stream (if a Group) is trigger-free and the
new final window (the last three old tokens followed by the new token) is
not a trigger. -/
theorem listNoTrig_snoc (xs : List Tt) (t : Tt)
    (hxs : listNoTrig xs = true)
    (hdeep : ∀ d inner, t = Tt.group d inner → listNoTrig inner = true)
    (hwin : quadOk xs.reverse[2]? xs.reverse[1]? xs.reverse[0]? (some t) = true) :
    listNoTrig (xs ++ [t]) = true := by
  obtain ⟨hq, hg⟩ := (listNoTrig_iff _).mp hxs
  refine (listNoTrig_iff _).mpr ⟨?_, ?_⟩
  · intro i
    by_cases h3 : i + 3 < xs.length
    · have hw := hq i
      rw [show (xs ++ [t])[i]? = xs[i]? from by
            rw [List.getElem?_append, if_pos (by omega)],
          show (xs ++ [t])[i + 1]? = xs[i + 1]? from by
            rw [List.getElem?_append, if_pos (by omega)],
          show (xs ++ [t])[i + 2]? = xs[i + 2]? from by
            rw [List.getElem?_append, if_pos (by omega)],
          show (xs ++ [t])[i + 3]? = xs[i + 3]? from by
            rw [List.getElem?_append, if_pos (by omega)]]
      exact hw
    · by_cases h3e : i + 3 = xs.length
      · have hlen3 : 3 ≤ xs.length := by omega
        have r0 : xs.reverse[0]? = xs[i + 2]? := by
          rw [List.getElem?_reverse (by omega)]
          congr 1
          omega
        have r1 : xs.reverse[1]? = xs[i + 1]? := by
          rw [List.getElem?_reverse (by omega)]
          congr 1
          omega
        have r2 : xs.reverse[2]? = xs[i]? := by
          rw [List.getElem?_reverse (by omega)]
          congr 1
          omega
        rw [r0, r1, r2] at hwin
        rw [show (xs ++ [t])[i]? = xs[i]? from by
              rw [List.getElem?_append, if_pos (by omega)],
            show (xs ++ [t])[i + 1]? = xs[i + 1]? from by
              rw [List.getElem?_append, if_pos (by omega)],
            show (xs ++ [t])[i + 2]? = xs[i + 2]? from by
              rw [List.getElem?_append, if_pos (by omega)],
            show (xs ++ [t])[i + 3]? = some t from by
              rw [h3e]
              exact List.getElem?_concat_length xs t]
        exact hwin
      · rw [List.getElem?_eq_none
            (by simp; omega : (xs ++ [t]).length ≤ i + 3)]
        exact quadOk_d_none _ _ _
  · intro i d inner hi
    by_cases hl : i < xs.length
    · refine hg i d inner ?_
      rw [List.getElem?_append, if_pos hl] at hi
      exact hi
    · have hle : i = xs.length := by
        rcases List.getElem?_eq_some_iff.mp hi with ⟨hl2, _⟩
        simp at hl2
        omega
      subst hle
      rw [List.getElem?_concat_length, Option.some.injEq] at hi
      exact hdeep d inner hi

theorem popTrigger_some_shape (revRes : List Tt) (mac bang : Tt) (res3 : List Tt)
    (h : popTrigger revRes = some (mac, bang, res3)) :
    ∃ name, mac = Tt.ident name ∧ bang = Tt.punct '!' Spacing.alone ∧
      revRes = Tt.punct '!' Spacing.alone :: Tt.ident name ::
        Tt.punct '.' Spacing.alone :: res3 := by
  unfold popTrigger at h
  split at h
  · rename_i name res3'
    simp only [Option.some.injEq, Prod.mk.injEq] at h
    obtain ⟨h1, h2, h3⟩ := h
    exact ⟨name, h1.symm, h2.symm, by rw [h3]⟩
  · simp at h

theorem popTrigger_none_quad (revRes : List Tt)
    (h : popTrigger revRes = Option.none) (t : Tt) :
    quadOk revRes[2]? revRes[1]? revRes[0]? (some t) = true := by
  match revRes with
  | [] => simp only [List.getElem?_nil]; exact quadOk_a_none _ _ _
  | [r0] => simp only [List.getElem?_cons_succ, List.getElem?_nil]
            exact quadOk_a_none _ _ _
  | [r0, r1] => simp only [List.getElem?_cons_succ, List.getElem?_nil]
                exact quadOk_a_none _ _ _
  | r0 :: r1 :: r2 :: rs3 =>
    simp only [List.getElem?_cons_succ, List.getElem?_cons_zero]
    by_cases h2 : isDotAlone r2 = true
    · by_cases h1 : isIdentTok r1 = true
      · by_cases h0 : isBangAlone r0 = true
        · exfalso
          obtain ⟨name, hr1⟩ := (isIdentTok_iff r1).mp h1
          rw [(isDotAlone_iff r2).mp h2, hr1, (isBangAlone_iff r0).mp h0] at h
          simp [popTrigger] at h
        · simp [quadOk, optIs, h0]
      · simp [quadOk, optIs, h1]
    · simp [quadOk, optIs, h2]

theorem visitLevel_nil (revisit : List Tt → Except RErr (List Tt))
    (revRes : List Tt) : visitLevel revisit revRes [] = .ok revRes.reverse := by
  simp [visitLevel]

theorem visitLevel_push (revisit : List Tt → Except RErr (List Tt))
    (revRes : List Tt) (tt : Tt) (rest : List Tt) (h : isGroupTok tt = false) :
    visitLevel revisit revRes (tt :: rest) =
      visitLevel revisit (tt :: revRes) rest := by
  cases tt with
  | group d inner => simp [isGroupTok] at h
  | ident name => simp [visitLevel]
  | punct c sp => simp [visitLevel]
  | lit s => simp [visitLevel]

theorem visitLevel_group_nontrigger (revisit : List Tt → Except RErr (List Tt))
    (revRes : List Tt) (d : Delimiter) (inner rest : List Tt)
    (hp : popTrigger revRes = Option.none) :
    visitLevel revisit revRes (Tt.group d inner :: rest) =
      match visitLevel revisit [] inner with
      | .error e => .error e
      | .ok inner2 => visitLevel revisit (Tt.group d inner2 :: revRes) rest := by
  simp [visitLevel, hp]

theorem visitLevel_group_trigger (revisit : List Tt → Except RErr (List Tt))
    (revRes : List Tt) (d : Delimiter) (inner rest : List Tt)
    (mac bang : Tt) (res3 : List Tt)
    (hp : popTrigger revRes = some (mac, bang, res3)) :
    visitLevel revisit revRes (Tt.group d inner :: rest) =
      match expressionLength res3.reverse with
      | .error msg => .error (RErr.panic msg)
      | .ok exprLen =>
        if exprLen = 0 then
          .error (RErr.panic "expected something before the postfix macro invocation")
        else
          match visitLevel revisit [] inner with
          | .error e => .error e
          | .ok grStream =>
            match revisit (prependMacroArgToGroup ((res3.take exprLen).reverse)
                d grStream).snd with
            | .error e => .error e
            | .ok finalStream =>
              visitLevel revisit
                (Tt.group (prependMacroArgToGroup ((res3.take exprLen).reverse)
                    d grStream).fst finalStream :: bang :: mac :: res3.drop exprLen)
                rest := by
  simp [visitLevel, hp]

/-- On input whose combination with the already-emitted buffer is
trigger-free at every depth, the walker is the identity: it copies every
token (for any re-visit function, since no re-visit ever happens). -/
theorem visitLevel_id (revisit : List Tt → Except RErr (List Tt)) :
    ∀ (N : Nat) (input revRes : List Tt), sizeOf input ≤ N →
      listNoTrig (revRes.reverse ++ input) = true →
      visitLevel revisit revRes input = .ok (revRes.reverse ++ input) := by
  intro N
  induction N with
  | zero =>
    intro input revRes hs h
    cases input with
    | nil => simp [visitLevel_nil]
    | cons tt rest => first | (simp at hs; omega) | simp at hs
  | succ N ihN =>
    intro input revRes hs h
    cases input with
    | nil => simp [visitLevel_nil]
    | cons tt rest =>
      have hsrest : sizeOf rest ≤ N := by simp at hs; omega
      have hcomb : ∀ t : Tt, t = tt →
          listNoTrig ((t :: revRes).reverse ++ rest) = true := by
        intro t ht
        subst ht
        simpa [List.append_assoc] using h
      cases tt with
      | group d inner =>
        have hsinner : sizeOf inner ≤ N := by
          simp at hs
          omega
        cases hp : popTrigger revRes with
        | some trip =>
          exfalso
          obtain ⟨mac, bang, res3⟩ := trip
          obtain ⟨name, hmac, hbang, hrev⟩ := popTrigger_some_shape _ _ _ _ hp
          rw [hrev] at h
          have hsuffix : listNoTrig (Tt.punct '.' Spacing.alone :: Tt.ident name ::
              Tt.punct '!' Spacing.alone :: Tt.group d inner :: rest) = true := by
            refine listNoTrig_append_right res3.reverse _ ?_
            simpa [List.append_assoc] using h
          have hw := ((listNoTrig_iff _).mp hsuffix).1 0
          simp [quadOk, optIs, isDotAlone, isIdentTok, isBangAlone, isGroupTok] at hw
        | none =>
          have hsub : listNoTrig (Tt.group d inner :: rest) = true :=
            listNoTrig_append_right _ _ h
          have hinner : listNoTrig inner = true :=
            ((listNoTrig_iff _).mp hsub).2 0 d inner (by simp)
          have hin := ihN inner [] hsinner (by simpa using hinner)
          have hrest := ihN rest (Tt.group d inner :: revRes) hsrest
            (hcomb _ rfl)
          rw [visitLevel_group_nontrigger revisit revRes d inner rest hp]
          rw [show visitLevel revisit [] inner = .ok inner from by
            simpa using hin]
          simp only [hrest]
          simp [List.append_assoc]
      | ident name =>
        rw [visitLevel_push revisit revRes _ rest (by simp [isGroupTok])]
        rw [ihN rest (Tt.ident name :: revRes) hsrest (hcomb _ rfl)]
        simp [List.append_assoc]
      | punct c sp =>
        rw [visitLevel_push revisit revRes _ rest (by simp [isGroupTok])]
        rw [ihN rest (Tt.punct c sp :: revRes) hsrest (hcomb _ rfl)]
        simp [List.append_assoc]
      | lit s =>
        rw [visitLevel_push revisit revRes _ rest (by simp [isGroupTok])]
        rw [ihN rest (Tt.lit s :: revRes) hsrest (hcomb _ rfl)]
        simp [List.append_assoc]

/-- Every stream the walker outputs is trigger-free at every depth,
provided the handed-over buffer is trigger-free and the re-visit function
only outputs trigger-free streams.  This is the heart of idempotence: the
scanner never stops at an Alone-spaced `.` (by `exprLengthAux_facts`), so
re-emitting `name`, `!` and the rebuilt Group after a rewrite can never
recreate a trigger window. -/
theorem visitLevel_out_noTrig (revisit : List Tt → Except RErr (List Tt))
    (hrev : ∀ s out, revisit s = .ok out → listNoTrig out = true) :
    ∀ (N : Nat) (input revRes out : List Tt), sizeOf input ≤ N →
      listNoTrig revRes.reverse = true →
      visitLevel revisit revRes input = .ok out → listNoTrig out = true := by
  intro N
  induction N with
  | zero =>
    intro input revRes out hs hb hv
    cases input with
    | nil =>
      rw [visitLevel_nil, Except.ok.injEq] at hv
      rw [← hv]; exact hb
    | cons tt rest => first | (simp at hs; omega) | simp at hs
  | succ N ihN =>
    intro input revRes out hs hb hv
    cases input with
    | nil =>
      rw [visitLevel_nil, Except.ok.injEq] at hv
      rw [← hv]; exact hb
    | cons tt rest =>
      have hsrest : sizeOf rest ≤ N := by simp at hs; omega
      cases tt with
      | ident name =>
        rw [visitLevel_push _ _ _ _ (by simp [isGroupTok])] at hv
        refine ihN rest (Tt.ident name :: revRes) out hsrest ?_ hv
        simp only [List.reverse_cons]
        exact listNoTrig_snoc _ _ hb (fun d2 i2 hc => Tt.noConfusion hc)
          (quadOk_d_nonGroup _ _ _ _ (by simp [isGroupTok]))
      | punct c sp =>
        rw [visitLevel_push _ _ _ _ (by simp [isGroupTok])] at hv
        refine ihN rest (Tt.punct c sp :: revRes) out hsrest ?_ hv
        simp only [List.reverse_cons]
        exact listNoTrig_snoc _ _ hb (fun d2 i2 hc => Tt.noConfusion hc)
          (quadOk_d_nonGroup _ _ _ _ (by simp [isGroupTok]))
      | lit s =>
        rw [visitLevel_push _ _ _ _ (by simp [isGroupTok])] at hv
        refine ihN rest (Tt.lit s :: revRes) out hsrest ?_ hv
        simp only [List.reverse_cons]
        exact listNoTrig_snoc _ _ hb (fun d2 i2 hc => Tt.noConfusion hc)
          (quadOk_d_nonGroup _ _ _ _ (by simp [isGroupTok]))
      | group d inner =>
        have hsinner : sizeOf inner ≤ N := by simp at hs; omega
        cases hp : popTrigger revRes with
        | none =>
          rw [visitLevel_group_nontrigger _ _ _ _ _ hp] at hv
          cases hin : visitLevel revisit [] inner with
          | error e => simp only [hin] at hv; exact absurd hv (by simp)
          | ok inner2 =>
            simp only [hin] at hv
            have hinner2 : listNoTrig inner2 = true :=
              ihN inner [] inner2 hsinner (by simp [listNoTrig_nil]) hin
            refine ihN rest (Tt.group d inner2 :: revRes) out hsrest ?_ hv
            simp only [List.reverse_cons]
            refine listNoTrig_snoc _ _ hb (fun d2 i2 hc => ?_) ?_
            · injection hc with h1 h2
              rw [← h2]; exact hinner2
            · simp only [List.reverse_reverse]
              exact popTrigger_none_quad revRes hp _
        | some trip =>
          obtain ⟨mac, bang, res3⟩ := trip
          obtain ⟨name, hmac, hbang, hrev2⟩ := popTrigger_some_shape _ _ _ _ hp
          rw [visitLevel_group_trigger _ _ _ _ _ _ _ _ hp] at hv
          cases hel : expressionLength res3.reverse with
          | error msg => simp only [hel] at hv; exact absurd hv (by simp)
          | ok exprLen =>
            simp only [hel] at hv
            by_cases he0 : exprLen = 0
            · rw [if_pos he0] at hv; exact absurd hv (by simp)
            · rw [if_neg he0] at hv
              cases hin : visitLevel revisit [] inner with
              | error e => simp only [hin] at hv; exact absurd hv (by simp)
              | ok grStream =>
                simp only [hin] at hv
                cases hrv : revisit (prependMacroArgToGroup
                    ((res3.take exprLen).reverse) d grStream).snd with
                | error e => simp only [hrv] at hv; exact absurd hv (by simp)
                | ok finalStream =>
                  simp only [hrv] at hv
                  -- buffer invariant for the continuation
                  have hfin : listNoTrig finalStream = true := hrev _ _ hrv
                  -- hb, decomposed along revRes = ! :: name :: . :: res3
                  rw [hrev2] at hb
                  simp only [List.reverse_cons] at hb
                  have hb1 := listNoTrig_append_left _ _ hb
                  have hb2 := listNoTrig_append_left _ _ hb1
                  have hb3 : listNoTrig res3.reverse = true :=
                    listNoTrig_append_left _ _ hb2
                  have hsplit : res3.reverse =
                      (res3.drop exprLen).reverse ++ (res3.take exprLen).reverse := by
                    rw [← List.reverse_append, List.take_append_drop]
                  have hdrop : listNoTrig (res3.drop exprLen).reverse = true := by
                    rw [hsplit] at hb3
                    exact listNoTrig_append_left _ _ hb3
                  -- the scanner's stop token is not an Alone-spaced dot
                  have hel2 : exprLengthAux res3 0 true = .ok exprLen := by
                    have := hel
                    unfold expressionLength at this
                    rw [List.reverse_reverse] at this
                    exact this
                  obtain ⟨hf1, hf2, hf3⟩ :=
                    exprLengthAux_facts res3 0 true exprLen hel2
                  -- push `name`
                  have hstep1 : listNoTrig ((res3.drop exprLen).reverse ++
                      [Tt.ident name]) = true :=
                    listNoTrig_snoc _ _ hdrop (fun d2 i2 hc => Tt.noConfusion hc)
                      (quadOk_d_nonGroup _ _ _ _ (by simp [isGroupTok]))
                  -- push `!`
                  have hstep2 : listNoTrig (((res3.drop exprLen).reverse ++
                      [Tt.ident name]) ++ [Tt.punct '!' Spacing.alone]) = true :=
                    listNoTrig_snoc _ _ hstep1 (fun d2 i2 hc => Tt.noConfusion hc)
                      (quadOk_d_nonGroup _ _ _ _ (by simp [isGroupTok]))
                  -- push the rebuilt group: the window before it is
                  -- (stop token, name, !), and the stop token is not `.`
                  have hwin : quadOk ((res3.drop exprLen).reverse ++
                        [Tt.ident name] ++ [Tt.punct '!' Spacing.alone]).reverse[2]?
                      ((res3.drop exprLen).reverse ++ [Tt.ident name] ++
                        [Tt.punct '!' Spacing.alone]).reverse[1]?
                      ((res3.drop exprLen).reverse ++ [Tt.ident name] ++
                        [Tt.punct '!' Spacing.alone]).reverse[0]?
                      (some (Tt.group (prependMacroArgToGroup
                        ((res3.take exprLen).reverse) d grStream).fst
                        finalStream)) = true := by
                    have hrevform : ((res3.drop exprLen).reverse ++
                        [Tt.ident name] ++ [Tt.punct '!' Spacing.alone]).reverse =
                        Tt.punct '!' Spacing.alone :: Tt.ident name ::
                          res3.drop exprLen := by
                      simp [List.reverse_append]
                    rw [hrevform]
                    simp only [List.getElem?_cons_succ, List.getElem?_cons_zero]
                    have hidx : (res3.drop exprLen)[0]? = res3[exprLen]? := by
                      rw [List.getElem?_drop]
                      congr 1
                    rw [hidx]
                    cases hstop : res3[exprLen]? with
                    | none => exact quadOk_a_none _ _ _
                    | some t =>
                      have hne : t ≠ Tt.punct '.' Spacing.alone :=
                        hf3 t (by simpa using hstop)
                      refine quadOk_a_nonDot _ _ _ _ ?_
                      rw [Bool.eq_false_iff]
                      intro hc
                      exact hne ((isDotAlone_iff t).mp hc)
                  have hstep3 : listNoTrig ((((res3.drop exprLen).reverse ++
                      [Tt.ident name]) ++ [Tt.punct '!' Spacing.alone]) ++
                      [Tt.group (prependMacroArgToGroup
                        ((res3.take exprLen).reverse) d grStream).fst
                        finalStream]) = true := by
                    refine listNoTrig_snoc _ _ hstep2 (fun d2 i2 hc => ?_) ?_
                    · injection hc with h1 h2
                      rw [← h2]; exact hfin
                    · exact hwin
                  rw [hmac, hbang] at hv
                  refine ihN rest _ out hsrest ?_ hv
                  simp only [List.reverse_cons]
                  simpa [List.append_assoc] using hstep3

/-- Every stream `visit_stream` outputs is trigger-free at every depth. -/
theorem visitStream_out_noTrig :
    ∀ (fuel : Nat) (s out : List Tt),
      visitStream fuel s = .ok out → listNoTrig out = true := by
  intro fuel
  induction fuel with
  | zero =>
    intro s out h
    exact visitLevel_out_noTrig _ (fun s2 o2 ho => absurd ho (by simp))
      (sizeOf s) s [] out le_rfl (by simp [listNoTrig_nil]) h
  | succ fuel ih =>
    intro s out h
    exact visitLevel_out_noTrig _ (fun s2 o2 ho => ih s2 o2 ho)
      (sizeOf s) s [] out le_rfl (by simp [listNoTrig_nil]) h

/-- The function `visit_stream` is the identity on trigger-free input, for any fuel. -/
theorem visitStream_id_of_noTrig (s : List Tt) (h : listNoTrig s = true)
    (fuel : Nat) : visitStream fuel s = .ok s := by
  cases fuel with
  | zero =>
    show visitLevel (fun _ => .error RErr.fuel) [] s = .ok s
    simpa using visitLevel_id _ (sizeOf s) s [] le_rfl (by simpa using h)
  | succ fuel =>
    show visitLevel (visitStream fuel) [] s = .ok s
    simpa using visitLevel_id _ (sizeOf s) s [] le_rfl (by simpa using h)

/-- Claim C6: on any input containing no trigger pattern at any nesting
depth, the rewriter returns a sequence structurally identical to its
input, whatever the fuel. -/
theorem c6_no_trigger_identity (s : List Tt) (h : listNoTrig s = true)
    (fuel : Nat) : visitStream fuel s = .ok s :=
  visitStream_id_of_noTrig s h fuel

/-- Claim C6, witness: a concrete trigger-free input is returned unchanged. -/
theorem c6_no_trigger_identity_witness :
    listNoTrig [Tt.ident "a", Tt.punct '+' Spacing.alone, Tt.lit "1"] = true ∧
    visitStream 0 [Tt.ident "a", Tt.punct '+' Spacing.alone, Tt.lit "1"] =
      .ok [Tt.ident "a", Tt.punct '+' Spacing.alone, Tt.lit "1"] := by
  have hnt : listNoTrig [Tt.ident "a", Tt.punct '+' Spacing.alone,
      Tt.lit "1"] = true := by
    simp [listNoTrig_cons, listNoTrig_nil, quadOk, optIs, isDotAlone,
      isIdentTok, isBangAlone, isGroupTok]
  exact ⟨hnt, c6_no_trigger_identity _ hnt 0⟩

/-- Claim C10: rewriting is idempotent: whatever `visit_stream` outputs is
returned unchanged by a second pass (with any fuel), because a successful
rewrite leaves no trigger pattern anywhere in its output. -/
theorem c10_rewrite_idempotent (fuel fuel2 : Nat) (s out : List Tt)
    (h : visitStream fuel s = .ok out) :
    visitStream fuel2 out = .ok out :=
  visitStream_id_of_noTrig out (visitStream_out_noTrig fuel s out h) fuel2

/-- Claim C10, witness: a concrete rewrite, re-run on its own output. -/
theorem c10_rewrite_idempotent_witness :
    visitStream 1 [Tt.ident "a", Tt.punct '.' Spacing.alone, Tt.ident "f",
      Tt.punct '!' Spacing.alone, Tt.group Delimiter.parenthesis []] =
      .ok [Tt.ident "f", Tt.punct '!' Spacing.alone,
        Tt.group Delimiter.parenthesis [Tt.ident "a"]] ∧
    visitStream 1 [Tt.ident "f", Tt.punct '!' Spacing.alone,
      Tt.group Delimiter.parenthesis [Tt.ident "a"]] =
      .ok [Tt.ident "f", Tt.punct '!' Spacing.alone,
        Tt.group Delimiter.parenthesis [Tt.ident "a"]] := by
  have h1 : visitStream 1 [Tt.ident "a", Tt.punct '.' Spacing.alone,
      Tt.ident "f", Tt.punct '!' Spacing.alone,
      Tt.group Delimiter.parenthesis []] =
      .ok [Tt.ident "f", Tt.punct '!' Spacing.alone,
        Tt.group Delimiter.parenthesis [Tt.ident "a"]] := by
    simp [visitStream, visitLevel, popTrigger, expressionLength, exprLengthAux,
      binopPartnerSearch, prependMacroArgToGroup]
  exact ⟨h1, c10_rewrite_idempotent 1 1 _ _ h1⟩

theorem listAtoms_nil : listAtoms [] = 0 := by rw [listAtoms.eq_1]

theorem listAtoms_cons_group (d : Delimiter) (inner rest : List Tt) :
    listAtoms (Tt.group d inner :: rest) =
      (Atom.g d ::ₘ listAtoms inner) + listAtoms rest := by
  rw [listAtoms.eq_2]

theorem listAtoms_cons_ident (s : String) (rest : List Tt) :
    listAtoms (Tt.ident s :: rest) = {Atom.id s} + listAtoms rest := by
  rw [listAtoms.eq_3] <;> simp

theorem listAtoms_cons_punct (c : Char) (sp : Spacing) (rest : List Tt) :
    listAtoms (Tt.punct c sp :: rest) = {Atom.p c sp} + listAtoms rest := by
  rw [listAtoms.eq_4] <;> simp

theorem listAtoms_cons_lit (s : String) (rest : List Tt) :
    listAtoms (Tt.lit s :: rest) = {Atom.l s} + listAtoms rest := by
  rw [listAtoms.eq_5] <;> simp

theorem listAtoms_append (xs ys : List Tt) :
    listAtoms (xs ++ ys) = listAtoms xs + listAtoms ys := by
  induction xs with
  | nil => simp [listAtoms_nil]
  | cons tt rest ih =>
    cases tt with
    | group d inner =>
      simp only [List.cons_append, listAtoms_cons_group, ih]
      exact (add_assoc _ _ _).symm
    | ident s =>
      simp only [List.cons_append, listAtoms_cons_ident, ih]
      exact (add_assoc _ _ _).symm
    | punct c sp =>
      simp only [List.cons_append, listAtoms_cons_punct, ih]
      exact (add_assoc _ _ _).symm
    | lit s =>
      simp only [List.cons_append, listAtoms_cons_lit, ih]
      exact (add_assoc _ _ _).symm

theorem listAtoms_reverse (l : List Tt) : listAtoms l.reverse = listAtoms l := by
  induction l with
  | nil => simp
  | cons tt rest ih =>
    rw [List.reverse_cons, listAtoms_append, ih]
    cases tt with
    | group d inner =>
      rw [listAtoms_cons_group, listAtoms_cons_group, listAtoms_nil]
      rw [add_zero]
      exact add_comm _ _
    | ident s =>
      rw [listAtoms_cons_ident, listAtoms_cons_ident, listAtoms_nil]
      rw [add_zero]
      exact add_comm _ _
    | punct c sp =>
      rw [listAtoms_cons_punct, listAtoms_cons_punct, listAtoms_nil]
      rw [add_zero]
      exact add_comm _ _
    | lit s =>
      rw [listAtoms_cons_lit, listAtoms_cons_lit, listAtoms_nil]
      rw [add_zero]
      exact add_comm _ _

theorem listAtoms_take_drop (n : Nat) (l : List Tt) :
    listAtoms (l.take n) + listAtoms (l.drop n) = listAtoms l := by
  rw [← listAtoms_append, List.take_append_drop]

/-- Atom accounting of the argument builder: the built stream holds exactly
the receiver atoms and the original argument atoms, plus at most one
inserted comma (exactly when the arguments are non-empty) and at most one
inserted Brace wrapper (exactly when the receiver is not passed directly). -/
theorem prependMacroArgToGroup_atoms (toks : List Tt) (d : Delimiter)
    (stream : List Tt) :
    ∃ cn bn : Nat, cn ≤ 1 ∧ bn ≤ 1 ∧
      listAtoms (prependMacroArgToGroup toks d stream).snd =
        listAtoms toks + listAtoms stream +
          Multiset.replicate cn commaAtom + Multiset.replicate bn braceAtom := by
  unfold prependMacroArgToGroup
  by_cases hs : stream.isEmpty
  · have hstream : stream = [] := by simpa [List.isEmpty_iff] using hs
    subst hstream
    simp only [List.isEmpty_nil, if_pos]
    match toks with
    | [] =>
      refine ⟨0, 1, by omega, by omega, ?_⟩
      simp only [listAtoms_cons_group, listAtoms_nil, braceAtom,
        Multiset.replicate_succ, Multiset.replicate_zero,
        ← Multiset.singleton_add, add_zero, zero_add] <;> abel
    | [Tt.lit s] =>
      refine ⟨0, 0, by omega, by omega, ?_⟩
      simp only [listAtoms_cons_lit, listAtoms_nil, Multiset.replicate_zero,
        ← Multiset.singleton_add, add_zero, zero_add] <;> abel
    | [Tt.ident s] =>
      refine ⟨0, 0, by omega, by omega, ?_⟩
      simp only [listAtoms_cons_ident, listAtoms_nil, Multiset.replicate_zero,
        ← Multiset.singleton_add, add_zero, zero_add] <;> abel
    | [Tt.group d2 inner] =>
      refine ⟨0, 1, by omega, by omega, ?_⟩
      simp only [listAtoms_cons_group, listAtoms_nil, braceAtom,
        Multiset.replicate_succ, Multiset.replicate_zero,
        ← Multiset.singleton_add, add_zero, zero_add] <;> abel
    | [Tt.punct c sp] =>
      refine ⟨0, 1, by omega, by omega, ?_⟩
      simp only [listAtoms_cons_group, listAtoms_cons_punct, listAtoms_nil,
        braceAtom, Multiset.replicate_succ, Multiset.replicate_zero,
        ← Multiset.singleton_add, add_zero, zero_add] <;> abel
    | t1 :: t2 :: ts =>
      refine ⟨0, 1, by omega, by omega, ?_⟩
      simp only [listAtoms_cons_group, listAtoms_nil, braceAtom,
        Multiset.replicate_succ, Multiset.replicate_zero,
        ← Multiset.singleton_add, add_zero, zero_add] <;> abel
  · simp only [if_neg hs]
    match toks with
    | [] =>
      refine ⟨1, 1, by omega, by omega, ?_⟩
      simp only [listAtoms_cons_group, listAtoms_cons_punct, listAtoms_nil,
        braceAtom, commaAtom, Multiset.replicate_succ, Multiset.replicate_zero,
        ← Multiset.singleton_add, add_zero, zero_add] <;> abel
    | [Tt.lit s] =>
      refine ⟨1, 0, by omega, by omega, ?_⟩
      simp only [listAtoms_cons_lit, listAtoms_cons_punct, listAtoms_nil,
        commaAtom, Multiset.replicate_succ, Multiset.replicate_zero,
        ← Multiset.singleton_add, add_zero, zero_add] <;> abel
    | [Tt.ident s] =>
      refine ⟨1, 0, by omega, by omega, ?_⟩
      simp only [listAtoms_cons_ident, listAtoms_cons_punct, listAtoms_nil,
        commaAtom, Multiset.replicate_succ, Multiset.replicate_zero,
        ← Multiset.singleton_add, add_zero, zero_add] <;> abel
    | [Tt.group d2 inner] =>
      refine ⟨1, 1, by omega, by omega, ?_⟩
      simp only [listAtoms_cons_group, listAtoms_cons_punct, listAtoms_nil,
        braceAtom, commaAtom, Multiset.replicate_succ, Multiset.replicate_zero,
        ← Multiset.singleton_add, add_zero, zero_add] <;> abel
    | [Tt.punct c sp] =>
      refine ⟨1, 1, by omega, by omega, ?_⟩
      simp only [listAtoms_cons_group, listAtoms_cons_punct, listAtoms_nil,
        braceAtom, commaAtom, Multiset.replicate_succ, Multiset.replicate_zero,
        ← Multiset.singleton_add, add_zero, zero_add] <;> abel
    | t1 :: t2 :: ts =>
      refine ⟨1, 1, by omega, by omega, ?_⟩
      simp only [listAtoms_cons_group, listAtoms_cons_punct, braceAtom,
        commaAtom, Multiset.replicate_succ, Multiset.replicate_zero,
        ← Multiset.singleton_add, add_zero, zero_add] <;> abel


theorem ite_dot_flip (n : Nat) (a : Atom) :
    (if a = Atom.p '.' Spacing.alone then n else 0) =
    (if Atom.p '.' Spacing.alone = a then n else 0) := by
  by_cases h : a = Atom.p '.' Spacing.alone
  · rw [if_pos h, if_pos h.symm]
  · rw [if_neg h, if_neg (fun hh => h hh.symm)]

theorem ite_comma_flip (n : Nat) (a : Atom) :
    (if a = Atom.p ',' Spacing.alone then n else 0) =
    (if Atom.p ',' Spacing.alone = a then n else 0) := by
  by_cases h : a = Atom.p ',' Spacing.alone
  · rw [if_pos h, if_pos h.symm]
  · rw [if_neg h, if_neg (fun hh => h hh.symm)]

theorem ite_brace_flip (n : Nat) (a : Atom) :
    (if a = Atom.g Delimiter.brace then n else 0) =
    (if Atom.g Delimiter.brace = a then n else 0) := by
  by_cases h : a = Atom.g Delimiter.brace
  · rw [if_pos h, if_pos h.symm]
  · rw [if_neg h, if_neg (fun hh => h hh.symm)]

/-- Atom accounting of one walker level: relative to the handed-over buffer
and the input, a successful run loses exactly one trigger-dot atom per
rewrite and gains at most one comma atom and at most one Brace wrapper atom
per rewrite, and nothing else. -/
theorem visitLevel_atoms (revisit : List Tt → Except RErr (List Tt))
    (hrev : ∀ s out, revisit s = .ok out → ∃ dn cn bn : Nat, cn ≤ dn ∧ bn ≤ dn ∧
      listAtoms out + Multiset.replicate dn dotAtom =
        listAtoms s + Multiset.replicate cn commaAtom +
          Multiset.replicate bn braceAtom) :
    ∀ (N : Nat) (input revRes out : List Tt), sizeOf input ≤ N →
      visitLevel revisit revRes input = .ok out →
      ∃ dn cn bn : Nat, cn ≤ dn ∧ bn ≤ dn ∧
        listAtoms out + Multiset.replicate dn dotAtom =
          listAtoms revRes + listAtoms input +
            Multiset.replicate cn commaAtom + Multiset.replicate bn braceAtom := by
  intro N
  induction N with
  | zero =>
    intro input revRes out hs hv
    cases input with
    | nil =>
      rw [visitLevel_nil, Except.ok.injEq] at hv
      refine ⟨0, 0, 0, le_rfl, le_rfl, ?_⟩
      rw [← hv, listAtoms_reverse, listAtoms_nil]
      simp
    | cons tt rest => first | (simp at hs; omega) | simp at hs
  | succ N ihN =>
    intro input revRes out hs hv
    cases input with
    | nil =>
      rw [visitLevel_nil, Except.ok.injEq] at hv
      refine ⟨0, 0, 0, le_rfl, le_rfl, ?_⟩
      rw [← hv, listAtoms_reverse, listAtoms_nil]
      simp
    | cons tt rest =>
      have hsrest : sizeOf rest ≤ N := by simp at hs; omega
      have pushCase : ∀ t : Tt, isGroupTok t = false → t = tt →
          (∀ d2 i2, t = Tt.group d2 i2 → False) →
          visitLevel revisit revRes (t :: rest) = .ok out →
          ∃ dn cn bn : Nat, cn ≤ dn ∧ bn ≤ dn ∧
            listAtoms out + Multiset.replicate dn dotAtom =
              listAtoms revRes + listAtoms (t :: rest) +
                Multiset.replicate cn commaAtom +
                Multiset.replicate bn braceAtom := by
        intro t hng hteq hnotg hv2
        rw [visitLevel_push _ _ _ _ hng] at hv2
        obtain ⟨dn, cn, bn, hc, hb, he⟩ := ihN rest (t :: revRes) out hsrest hv2
        refine ⟨dn, cn, bn, hc, hb, ?_⟩
        rw [he]
        cases t with
        | group d2 i2 => exact absurd rfl (hnotg d2 i2)
        | ident s =>
          rw [listAtoms_cons_ident, listAtoms_cons_ident]
          abel
        | punct c sp =>
          rw [listAtoms_cons_punct, listAtoms_cons_punct]
          abel
        | lit s =>
          rw [listAtoms_cons_lit, listAtoms_cons_lit]
          abel
      cases tt with
      | ident name =>
        exact pushCase _ (by simp [isGroupTok]) rfl
          (fun d2 i2 hc => Tt.noConfusion hc) hv
      | punct c sp =>
        exact pushCase _ (by simp [isGroupTok]) rfl
          (fun d2 i2 hc => Tt.noConfusion hc) hv
      | lit s =>
        exact pushCase _ (by simp [isGroupTok]) rfl
          (fun d2 i2 hc => Tt.noConfusion hc) hv
      | group d inner =>
        have hsinner : sizeOf inner ≤ N := by simp at hs; omega
        cases hp : popTrigger revRes with
        | none =>
          rw [visitLevel_group_nontrigger _ _ _ _ _ hp] at hv
          cases hin : visitLevel revisit [] inner with
          | error e => simp only [hin] at hv; exact absurd hv (by simp)
          | ok inner2 =>
            simp only [hin] at hv
            obtain ⟨d1, c1, b1, hc1, hb1, he1⟩ :=
              ihN inner [] inner2 hsinner hin
            rw [listAtoms_nil, zero_add] at he1
            obtain ⟨d3, c3, b3, hc3, hb3, he3⟩ :=
              ihN rest (Tt.group d inner2 :: revRes) out hsrest hv
            rw [listAtoms_cons_group] at he3
            refine ⟨d1 + d3, c1 + c3, b1 + b3, by omega, by omega, ?_⟩
            rw [listAtoms_cons_group]
            refine Multiset.ext.mpr fun a => ?_
            have k1 := congrArg (Multiset.count a) he1
            have k3 := congrArg (Multiset.count a) he3
            simp only [Multiset.count_add, Multiset.count_replicate,
              Multiset.count_cons, Multiset.count_singleton, dotAtom,
              commaAtom, braceAtom] at k1 k3 ⊢
            first
            | simp only [ite_dot_flip, ite_comma_flip, ite_brace_flip]
                at k1 k3 ⊢
            | skip
            by_cases h1 : Atom.p '.' Spacing.alone = a <;>
              by_cases h2 : Atom.p ',' Spacing.alone = a <;>
              by_cases h3 : Atom.g Delimiter.brace = a <;>
              first
              | exact absurd (h1.trans h2.symm) (by decide)
              | exact absurd (h1.trans h3.symm) (by decide)
              | exact absurd (h2.trans h3.symm) (by decide)
              | (simp only [if_pos h1, if_neg h2, if_neg h3,
                  if_pos h2, if_neg h1, if_pos h3] at k1 k3 ⊢ <;> omega)
              | (simp [h1, h2, h3] at k1 k3 ⊢ <;> omega)
        | some trip =>
          obtain ⟨mac, bang, res3⟩ := trip
          obtain ⟨name, hmac, hbang, hrev2⟩ := popTrigger_some_shape _ _ _ _ hp
          rw [visitLevel_group_trigger _ _ _ _ _ _ _ _ hp] at hv
          cases hel : expressionLength res3.reverse with
          | error msg => simp only [hel] at hv; exact absurd hv (by simp)
          | ok exprLen =>
            simp only [hel] at hv
            by_cases he0 : exprLen = 0
            · rw [if_pos he0] at hv; exact absurd hv (by simp)
            · rw [if_neg he0] at hv
              cases hin : visitLevel revisit [] inner with
              | error e => simp only [hin] at hv; exact absurd hv (by simp)
              | ok grStream =>
                simp only [hin] at hv
                cases hrv : revisit (prependMacroArgToGroup
                    ((res3.take exprLen).reverse) d grStream).snd with
                | error e => simp only [hrv] at hv; exact absurd hv (by simp)
                | ok finalStream =>
                  simp only [hrv] at hv
                  obtain ⟨d1, c1, b1, hc1, hb1, he1⟩ :=
                    ihN inner [] grStream hsinner hin
                  rw [listAtoms_nil, zero_add] at he1
                  obtain ⟨d2, c2, b2, hc2, hb2, he2⟩ := hrev _ _ hrv
                  obtain ⟨cP, bP, hcP, hbP, heP⟩ :=
                    prependMacroArgToGroup_atoms ((res3.take exprLen).reverse)
                      d grStream
                  rw [listAtoms_reverse] at heP
                  obtain ⟨d3, c3, b3, hc3, hb3, he3⟩ :=
                    ihN rest _ out hsrest hv
                  rw [hmac, hbang,
                    show (prependMacroArgToGroup ((res3.take exprLen).reverse)
                      d grStream).fst = d from rfl,
                    listAtoms_cons_group, listAtoms_cons_punct,
                    listAtoms_cons_ident] at he3
                  rw [hrev2, listAtoms_cons_punct, listAtoms_cons_ident,
                    listAtoms_cons_punct]
                  have htd : listAtoms (res3.take exprLen) +
                      listAtoms (res3.drop exprLen) = listAtoms res3 :=
                    listAtoms_take_drop exprLen res3
                  refine ⟨d1 + d2 + d3 + 1, c1 + c2 + c3 + cP,
                    b1 + b2 + b3 + bP, by omega, by omega, ?_⟩
                  rw [listAtoms_cons_group]
                  refine Multiset.ext.mpr fun a => ?_
                  have k1 := congrArg (Multiset.count a) he1
                  have k2 := congrArg (Multiset.count a) he2
                  have kP := congrArg (Multiset.count a) heP
                  have k3 := congrArg (Multiset.count a) he3
                  have kt := congrArg (Multiset.count a) htd
                  simp only [Multiset.count_add, Multiset.count_replicate,
                    Multiset.count_cons, Multiset.count_singleton, dotAtom,
                    commaAtom, braceAtom] at k1 k2 kP k3 kt ⊢
                  first
                  | simp only [ite_dot_flip, ite_comma_flip, ite_brace_flip]
                      at k1 k2 kP k3 kt ⊢
                  | skip
                  by_cases h1 : Atom.p '.' Spacing.alone = a <;>
                    by_cases h2 : Atom.p ',' Spacing.alone = a <;>
                    by_cases h3 : Atom.g Delimiter.brace = a <;>
                    first
                    | exact absurd (h1.trans h2.symm) (by decide)
                    | exact absurd (h1.trans h3.symm) (by decide)
                    | exact absurd (h2.trans h3.symm) (by decide)
                    | (simp [h1, h2, h3] at k1 k2 kP k3 kt ⊢ <;> omega)

/-- Atom accounting of the whole rewriter: relative to the input, a
successful rewrite removes some number of trigger-dot atoms (one per
rewritten site) and adds at most that many comma atoms and at most that
many Brace wrapper atoms; every other atom is preserved exactly. -/
theorem visitStream_atoms :
    ∀ (fuel : Nat) (s out : List Tt), visitStream fuel s = .ok out →
      ∃ dn cn bn : Nat, cn ≤ dn ∧ bn ≤ dn ∧
        listAtoms out + Multiset.replicate dn dotAtom =
          listAtoms s + Multiset.replicate cn commaAtom +
            Multiset.replicate bn braceAtom := by
  intro fuel
  induction fuel with
  | zero =>
    intro s out h
    obtain ⟨dn, cn, bn, hc, hb, he⟩ := visitLevel_atoms _
      (fun s2 o2 ho => absurd ho (by simp)) (sizeOf s) s [] out le_rfl h
    rw [listAtoms_nil, zero_add] at he
    exact ⟨dn, cn, bn, hc, hb, he⟩
  | succ fuel ih =>
    intro s out h
    obtain ⟨dn, cn, bn, hc, hb, he⟩ := visitLevel_atoms _
      (fun s2 o2 ho => ih s2 o2 ho) (sizeOf s) s [] out le_rfl h
    rw [listAtoms_nil, zero_add] at he
    exact ⟨dn, cn, bn, hc, hb, he⟩

/-- Claim C1, counterexample: for `a.f!()` the rewrite succeeds, but the
trigger's `.` punctuation from the input does not occur in the output (it
is discarded), and no separator comma is inserted either (the call group's
arguments are empty): the output atoms are not the input atoms plus one
separator and an optional wrapper. -/
theorem c1_counterexample :
    visitStream 1 [Tt.ident "a", Tt.punct '.' Spacing.alone, Tt.ident "f",
      Tt.punct '!' Spacing.alone, Tt.group Delimiter.parenthesis []] =
      .ok [Tt.ident "f", Tt.punct '!' Spacing.alone,
        Tt.group Delimiter.parenthesis [Tt.ident "a"]] ∧
    Multiset.count dotAtom (listAtoms [Tt.ident "a",
      Tt.punct '.' Spacing.alone, Tt.ident "f", Tt.punct '!' Spacing.alone,
      Tt.group Delimiter.parenthesis []]) = 1 ∧
    Multiset.count dotAtom (listAtoms [Tt.ident "f",
      Tt.punct '!' Spacing.alone,
      Tt.group Delimiter.parenthesis [Tt.ident "a"]]) = 0 ∧
    Multiset.count commaAtom (listAtoms [Tt.ident "f",
      Tt.punct '!' Spacing.alone,
      Tt.group Delimiter.parenthesis [Tt.ident "a"]]) = 0 := by
  refine ⟨?_, ?_, ?_, ?_⟩
  · simp [visitStream, visitLevel, popTrigger, expressionLength, exprLengthAux,
      binopPartnerSearch, prependMacroArgToGroup]
  · simp [listAtoms_cons_ident, listAtoms_cons_punct, listAtoms_cons_group,
      listAtoms_nil, dotAtom, Multiset.count_singleton]
  · simp [listAtoms_cons_ident, listAtoms_cons_punct, listAtoms_cons_group,
      listAtoms_nil, dotAtom, Multiset.count_singleton]
  · simp [listAtoms_cons_ident, listAtoms_cons_punct, listAtoms_cons_group,
      listAtoms_nil, commaAtom, Multiset.count_singleton]

/-- Claim C1, amended: for every input on which the rewrite succeeds, the
multiset of token atoms of the output equals that of the input minus one
trigger-dot atom per rewritten site, plus at most one separator-comma atom
per site (inserted only when the call arguments are non-empty) and at most
one Brace-wrapper atom per site; no other token is discarded or
fabricated. -/
theorem c1_amended_atom_accounting (fuel : Nat) (s out : List Tt)
    (h : visitStream fuel s = .ok out) :
    ∃ dn cn bn : Nat, cn ≤ dn ∧ bn ≤ dn ∧
      listAtoms out + Multiset.replicate dn dotAtom =
        listAtoms s + Multiset.replicate cn commaAtom +
          Multiset.replicate bn braceAtom :=
  visitStream_atoms fuel s out h

/-- Claim C1, witness: the accounting theorem applied to a concrete rewrite. -/
theorem c1_amended_atom_accounting_witness :
    visitStream 1 [Tt.ident "a", Tt.punct '.' Spacing.alone, Tt.ident "f",
      Tt.punct '!' Spacing.alone, Tt.group Delimiter.parenthesis []] =
      .ok [Tt.ident "f", Tt.punct '!' Spacing.alone,
        Tt.group Delimiter.parenthesis [Tt.ident "a"]] ∧
    (∃ dn cn bn : Nat, cn ≤ dn ∧ bn ≤ dn ∧
      listAtoms [Tt.ident "f", Tt.punct '!' Spacing.alone,
        Tt.group Delimiter.parenthesis [Tt.ident "a"]] +
          Multiset.replicate dn dotAtom =
        listAtoms [Tt.ident "a", Tt.punct '.' Spacing.alone, Tt.ident "f",
          Tt.punct '!' Spacing.alone, Tt.group Delimiter.parenthesis []] +
          Multiset.replicate cn commaAtom +
          Multiset.replicate bn braceAtom) := by
  have h1 : visitStream 1 [Tt.ident "a", Tt.punct '.' Spacing.alone,
      Tt.ident "f", Tt.punct '!' Spacing.alone,
      Tt.group Delimiter.parenthesis []] =
      .ok [Tt.ident "f", Tt.punct '!' Spacing.alone,
        Tt.group Delimiter.parenthesis [Tt.ident "a"]] := by
    simp [visitStream, visitLevel, popTrigger, expressionLength, exprLengthAux,
      binopPartnerSearch, prependMacroArgToGroup]
  exact ⟨h1, c1_amended_atom_accounting 1 _ _ h1⟩
